import Mathlib

/-!
Shallow embedding of the compaction planning and execution engine of
parquet_compactor.py (class S3ParquetCompactor), restricted to the pure
decision logic the specification talks about: candidate conversion,
bin packing, already-compacted detection, the skip policy and the
per-partition driver logic of compact().

Conventions of the embedding:
* Python strings become String; substring containment (the Python in
  operator) is List.isInfixOf on the character lists.
* S3 listing entries become triples (key, sizeBytes, lastModified); the
  lastModified timestamp is a Nat, which is faithful because the code
  only compares timestamps by order.
* The byte budget FILE_SIZE_BYTES is a float in the source
  (TARGET_FILE_SIZE_GB * 2^30); it is modelled as an abstract rational
  parameter named budget, and the float running totals of
  determine_file_splits become exact rationals (float addition of file
  sizes of realistic magnitude is exact, so the idealization is faithful).
* uuid.uuid4().hex is an arbitrary parameter subject to the guarantee
  the library gives: a string of exactly 32 lowercase hex characters.
* The compiled regular expressions of filter_compacted are embedded as
  executable matchers over character lists; the interpolated basename is
  matched literally, which coincides with the compiled pattern whenever
  the basename contains no regex metacharacters.
-/

namespace ParquetCompactor

/-- Listing entry after convert_results: (key, sizeBytes, lastModified). -/
abbrev FileTuple := String × Nat × Nat

/-! ### convert_results (per partition) -/

/-- Embeds the inner loop of S3ParquetCompactor.convert_results for one
partition: drop entries whose size is at least the budget
(`if file_size >= FILE_SIZE_BYTES: continue`), and prefix the remaining
keys with the bucket path prefix. -/
def convert_partition (pp : String) (budget : ℚ) (values : List (String × Nat × Nat)) :
    List FileTuple :=
  values.filterMap (fun v =>
    if budget ≤ (v.2.1 : ℚ) then none
    else some (pp ++ v.1, v.2.1, v.2.2))

/-! ### determine_file_splits -/

/-- One bin of determine_file_splits: the member files together with the
running float total size_dict[i]. The source stores only the key in
split_dict[i]; the embedding keeps the (key, size) pair so that the sum
of member sizes is expressible, and projects to the key at the end. -/
abbrev Bin := List (String × ℚ) × ℚ

/-- Embeds one iteration of the outer loop of determine_file_splits.
The inner `for i in range(split_count)` loop has no break, so the file
is appended to every bin whose running total still fits
(`size_dict[i] + file_size <= FILE_SIZE_BYTES`); only when no bin at all
accepted it (`if not file_inserted`) is a fresh bin opened at the next
index. -/
def dfs_step (budget : ℚ) (bins : List Bin) (t : String × ℚ) : List Bin :=
  let bins2 := bins.map (fun b =>
    if b.2 + t.2 ≤ budget then (b.1 ++ [t], b.2 + t.2) else b)
  if bins.any (fun b => decide (b.2 + t.2 ≤ budget)) then bins2
  else bins2 ++ [([t], t.2)]

/-- The bin state after the whole outer loop of determine_file_splits.
split_count starts at 1, so index 0 is an (initially empty) open bin. -/
def dfs_bins (budget : ℚ) (file_tuples : List (String × ℚ)) : List Bin :=
  file_tuples.foldl (dfs_step budget) [([], 0)]

/-- Packing invariant of one bin: the running total is the sum of the
member sizes, and any bin holding at least two files is within budget
(a fresh bin can hold one oversized file, but then nothing else ever
fits next to it when sizes are nonnegative). -/
def BinInv (budget : ℚ) (b : Bin) : Prop :=
  b.2 = (b.1.map (fun t => t.2)).sum ∧ (b.2 ≤ budget ∨ b.1.length ≤ 1)

/-- Embeds S3ParquetCompactor.determine_file_splits: run the packing
loop, project each bin to its member keys, and keep only lists with more
than one member (`if len(file_list) > 1`). Python iterates
split_dict.values() in first-insertion order while the embedding uses
index order; the emitted set of batches is the same. -/
def determine_file_splits (budget : ℚ) (file_tuples : List (String × ℚ)) :
    List (List String) :=
  ((dfs_bins budget file_tuples).map (fun b => b.1.map (fun t => t.1))).filter
    (fun l => decide (1 < l.length))

/-! ### merge_files_in_dataframe -/

/-- Embeds the success flag of merge_files_in_dataframe: success starts
True and is set to False by every chunk whose to_parquet call raises a
caught exception; chunk_ok lists, per streamed chunk, whether its write
succeeded. -/
def merge_files_success (chunk_ok : List Bool) : Bool :=
  chunk_ok.foldl (fun success ok => if ok then success else false) true

/-- Embeds the per-chunk destination
`f"{s3_path}{file_name}_{uuid.uuid4().hex}.parquet"` with the uuid hex
digest passed in as hex. -/
def output_key (s3_path file_name hex : String) : String :=
  s3_path ++ file_name ++ "_" ++ hex ++ ".parquet"

/-- The destinations written by merge_files_in_dataframe, one per chunk,
with hexes the successive uuid4().hex values. -/
def merge_output_keys (s3_path file_name : String) (hexes : List String) :
    List String :=
  hexes.map (output_key s3_path file_name)

/-! ### determine_base_file_name -/

/-- Remainder of s after the first occurrence of the separator sep, or
none when sep does not occur; this is where the second chunk of the
Python split(sep) starts. -/
def afterFirst (sep : List Char) : List Char → Option (List Char)
  | [] => if sep.isEmpty then some [] else none
  | c :: r =>
    if (c :: r).take sep.length = sep then some ((c :: r).drop sep.length)
    else afterFirst sep r

/-- Prefix of s up to (excluding) the first occurrence of stop, or all
of s when stop does not occur; this is where a Python split chunk ends. -/
def upTo (stop : List Char) : List Char → List Char
  | [] => []
  | c :: r => if (c :: r).take stop.length = stop then [] else c :: upTo stop r

/-- Embeds S3ParquetCompactor.determine_base_file_name:
`path.split("source=")[1].split("/")[0]`, falling back to "data" when
the IndexError branch fires because "source=" does not occur. The
second chunk of split("source=") is the text after the first
occurrence, cut at the next occurrence; taking the head chunk of its
split("/") then also cuts at the first slash. -/
def determine_base_file_name (path : String) : String :=
  match afterFirst "source=".data path.data with
  | some rest => ⟨upTo "/".data (upTo "source=".data rest)⟩
  | none => "data"

/-! ### should_skip_compacting -/

/-- Embeds the Python in operator on strings: needle is a contiguous
substring of hay. -/
def strIn (needle hay : String) : Bool :=
  decide (needle.data <:+: hay.data)

/-- Embeds S3ParquetCompactor.should_skip_compacting: both
`f"year={self.current_year_str}"` and `f"month={self.current_month_str}"`
occur somewhere in the path, and some configured skip label occurs
somewhere in the path (plain substring tests, not path-segment parses). -/
def should_skip_compacting (cy cm : String) (skipList : List String)
    (path : String) : Bool :=
  (strIn ("year=" ++ cy) path && strIn ("month=" ++ cm) path) &&
  skipList.any (fun source_type => strIn source_type path)

/-! ### filter_compacted -/

/-- Character class [0-9a-f] of the first compiled pattern. -/
def isLowerHexDigit (c : Char) : Bool :=
  c.isDigit || (decide ('a' ≤ c) && decide (c ≤ 'f'))

/-- Match of the first compiled pattern
/basename_[0-9a-f]x32.parquet (with the regex dot matching any single
character and the hex run of length exactly 32) anchored at the head of
s, the basename taken literally. -/
def hexPatHere (b : List Char) (s : List Char) : Bool :=
  match s with
  | [] => false
  | c0 :: r =>
    decide (c0 = '/') &&
    decide (r.take b.length = b) &&
    (match r.drop b.length with
     | [] => false
     | c1 :: r2 =>
       decide (c1 = '_') &&
       decide ((r2.take 32).length = 32) &&
       (r2.take 32).all isLowerHexDigit &&
       (match r2.drop 32 with
        | [] => false
        | _ :: r3 => decide (r3.take 7 = "parquet".data)))

/-- Match of the tail [0-9]+ then any character then parquet of the
second compiled pattern: at least one digit is consumed, and after each
digit either the any-char-then-parquet tail matches here or one more
digit is consumed (this enumerates every backtracking split). -/
def intSuffixTail : List Char → Bool
  | [] => false
  | c :: r =>
    c.isDigit &&
    ((match r with
      | _ :: r2 => decide (r2.take 7 = "parquet".data)
      | [] => false)
     || intSuffixTail r)

/-- Match of the second compiled pattern /basename_[0-9]+.parquet
anchored at the head of s, the basename taken literally. -/
def intPatHere (b : List Char) (s : List Char) : Bool :=
  match s with
  | [] => false
  | c0 :: r =>
    decide (c0 = '/') &&
    decide (r.take b.length = b) &&
    (match r.drop b.length with
     | [] => false
     | c1 :: r2 => decide (c1 = '_') && intSuffixTail r2)

/-- Unanchored regex search: the head matcher p succeeds at some
position, i.e. on some suffix of the subject. -/
def searchAny (p : List Char → Bool) : List Char → Bool
  | [] => p []
  | c :: r => p (c :: r) || searchAny p r

/-- A file key is classified as already compacted by filter_compacted
when regex1 (uuid-hex convention) or regex2 (legacy integer convention)
finds a match anywhere in it. -/
def matches_compacted (basename : String) (file : String) : Bool :=
  searchAny (hexPatHere basename.data) file.data ||
  searchAny (intPatHere basename.data) file.data

/-- The single pass of filter_compacted over the listing: new files go,
in order, to the first component (result); convention-matching files go,
as (key, lastModified) pairs and in order, to the second component
(compacted). -/
def partitionFiles (basename : String) :
    List FileTuple → List String × List (String × Nat)
  | [] => ([], [])
  | t :: rest =>
    let acc := partitionFiles basename rest
    if matches_compacted basename t.1 then
      (acc.1, (t.1, t.2.2) :: acc.2)
    else
      (t.1 :: acc.1, acc.2)

/-- Embeds `sorted(compacted, key=lambda x: x[1])[-1]`: the last element
of a stable ascending sort by lastModified is the member with maximal
lastModified, and among equal maxima the one listed last; the recursion
keeps the later element exactly on ties. -/
def last_compacted : List (String × Nat) → Option (String × Nat)
  | [] => none
  | e :: rest =>
    match last_compacted rest with
    | none => some e
    | some b => if e.2 ≤ b.2 then some b else some e

/-- Embeds S3ParquetCompactor.filter_compacted: keep every
non-matching file as a candidate and, when any convention-matching file
exists, prepend the key of the most recently modified one. -/
def filter_compacted (basename : String) (file_tuple : List FileTuple) :
    List String :=
  let acc := partitionFiles basename file_tuple
  match last_compacted acc.2 with
  | some lc => lc.1 :: acc.1
  | none => acc.1

/-! ### compact (per-partition driver logic) -/

/-- What the body of the inner loop of S3ParquetCompactor.compact
decides to do for one (path, file_tuples) pair. -/
inductive PartitionAction where
  | skipped
  | noop
  | run (file_list : List String)
deriving DecidableEq

/-- Embeds the per-partition branch of S3ParquetCompactor.compact:
skip policy first, then the `len(file_tuples) <= 1` no-op check, and
otherwise one merge over the whole filter_compacted candidate list. -/
def compact_partition (cy cm : String) (skipList : List String)
    (path : String) (file_tuples : List FileTuple) : PartitionAction :=
  if should_skip_compacting cy cm skipList path then .skipped
  else if file_tuples.length ≤ 1 then .noop
  else .run (filter_compacted (determine_base_file_name path) file_tuples)

/-- The file lists handed to merge_files_in_dataframe for one partition:
compact() performs exactly one merge call, over the whole candidate
list, when it reaches the run branch. -/
def partition_merge_lists (a : PartitionAction) : List (List String) :=
  match a with
  | .run fl => [fl]
  | _ => []

/-- The keys handed to remove_uncompacted_files for one partition:
compact() deletes the merged file_list only when
merge_files_in_dataframe returned success. -/
def partition_deletes (a : PartitionAction) (chunk_ok : List Bool) :
    List String :=
  match a with
  | .run fl => if merge_files_success chunk_ok then fl else []
  | _ => []

/-! ## Helper lemmas -/

theorem foldl_success_absorb (l : List Bool) :
    l.foldl (fun success ok => if ok then success else false) false = false := by
  induction l with
  | nil => rfl
  | cons x xs ih => cases x <;> simpa using ih

theorem merge_files_success_eq_false (chunk_ok : List Bool) (h : false ∈ chunk_ok) :
    merge_files_success chunk_ok = false := by
  unfold merge_files_success
  induction chunk_ok with
  | nil => cases h
  | cons x xs ih =>
    rcases List.mem_cons.mp h with hx | hxs
    · rw [← hx]
      simpa using foldl_success_absorb xs
    · cases x
      · simpa using foldl_success_absorb xs
      · simpa using ih hxs

theorem compact_partition_run (cy cm : String) (skipList : List String)
    (path : String) (file_tuples : List FileTuple)
    (hskip : should_skip_compacting cy cm skipList path = false)
    (hlen : 1 < file_tuples.length) :
    compact_partition cy cm skipList path file_tuples =
      .run (filter_compacted (determine_base_file_name path) file_tuples) := by
  have h2 : ¬ file_tuples.length ≤ 1 := by omega
  simp [compact_partition, hskip, h2]

/-! ## C5 -/

/-- Claim C5: source files of a batch are deleted only if the merge outcome is
success; if any chunk write failed, the delete call is not issued for
that partition. -/
theorem C5_delete_gated (cy cm : String) (skipList : List String)
    (path : String) (file_tuples : List FileTuple) (chunk_ok : List Bool)
    (hfail : false ∈ chunk_ok) :
    partition_deletes (compact_partition cy cm skipList path file_tuples) chunk_ok = [] := by
  have hs := merge_files_success_eq_false chunk_ok hfail
  cases compact_partition cy cm skipList path file_tuples with
  | skipped => rfl
  | noop => rfl
  | run fl => simp [partition_deletes, hs]

/-- Witness for C5 at a concrete partition and a failing chunk. -/
theorem C5_delete_gated_witness :
    false ∈ [true, false] ∧
    partition_deletes
      (compact_partition "2026" "10" ["AWS", "Azure"] "q/source=bar/"
        [("q/source=bar/raw1.parquet", 6, 1), ("q/source=bar/raw2.parquet", 7, 2)])
      [true, false] = [] :=
  ⟨by decide,
    C5_delete_gated "2026" "10" ["AWS", "Azure"] "q/source=bar/"
      [("q/source=bar/raw1.parquet", 6, 1), ("q/source=bar/raw2.parquet", 7, 2)]
      [true, false] (by decide)⟩

/-! ## C10 -/

/-- Claim C10: a non-skipped partition whose converted file list has at most
one entry is a pure no-op of the driver: no merge call and no delete
call is issued for it. -/
theorem C10_small_noop (cy cm : String) (skipList : List String) (path : String)
    (file_tuples : List FileTuple) (chunk_ok : List Bool)
    (hskip : should_skip_compacting cy cm skipList path = false)
    (hlen : file_tuples.length ≤ 1) :
    compact_partition cy cm skipList path file_tuples = .noop ∧
    partition_merge_lists (compact_partition cy cm skipList path file_tuples) = [] ∧
    partition_deletes (compact_partition cy cm skipList path file_tuples) chunk_ok = [] := by
  have h : compact_partition cy cm skipList path file_tuples = .noop := by
    simp [compact_partition, hskip, hlen]
  refine ⟨h, ?_, ?_⟩ <;> rw [h] <;> rfl

/-- Witness for C10 at a concrete one-file partition. -/
theorem C10_small_noop_witness :
    (should_skip_compacting "2026" "10" ["AWS", "Azure"] "q/source=baz/" = false ∧
     ([("q/source=baz/raw1.parquet", 6, 1)] : List FileTuple).length ≤ 1) ∧
    (compact_partition "2026" "10" ["AWS", "Azure"] "q/source=baz/"
        [("q/source=baz/raw1.parquet", 6, 1)] = .noop ∧
     partition_merge_lists (compact_partition "2026" "10" ["AWS", "Azure"] "q/source=baz/"
        [("q/source=baz/raw1.parquet", 6, 1)]) = [] ∧
     partition_deletes (compact_partition "2026" "10" ["AWS", "Azure"] "q/source=baz/"
        [("q/source=baz/raw1.parquet", 6, 1)]) [true] = []) :=
  ⟨⟨by decide, by decide⟩,
    C10_small_noop "2026" "10" ["AWS", "Azure"] "q/source=baz/"
      [("q/source=baz/raw1.parquet", 6, 1)] [true] (by decide) (by decide)⟩

/-! ## C4 -/

/-- Counterexample for C4: the merge pipeline is executed on a single-file
group. When both listed files match the compacted-output convention,
filter_compacted keeps only the newest one, and compact() still calls
merge_files_in_dataframe (and on success the delete) on that singleton
list, so the second half of the claim is false on the code. -/
theorem C4_counterexample :
    compact_partition "2026" "10" ["AWS", "Azure"] "p/source=foo/"
      [("p/source=foo/foo_0.parquet", 5, 1), ("p/source=foo/foo_1.parquet", 5, 2)] =
      .run ["p/source=foo/foo_1.parquet"] ∧
    partition_merge_lists
      (compact_partition "2026" "10" ["AWS", "Azure"] "p/source=foo/"
        [("p/source=foo/foo_0.parquet", 5, 1), ("p/source=foo/foo_1.parquet", 5, 2)]) =
      [["p/source=foo/foo_1.parquet"]] ∧
    (["p/source=foo/foo_1.parquet"] : List String).length = 1 := by
  decide

/-- Amended claim C4: every batch emitted by determine_file_splits has at
least two members; the no-single-file guarantee holds for the planner
output only, not for the merge calls the driver actually issues. -/
theorem C4_min_batch_size (budget : ℚ) (file_tuples : List (String × ℚ)) :
    ∀ batch ∈ determine_file_splits budget file_tuples, 2 ≤ batch.length := by
  intro batch hb
  unfold determine_file_splits at hb
  have h := (List.mem_filter.mp hb).2
  have h2 : 1 < batch.length := of_decide_eq_true h
  omega

/-- Witness for the amended C4 on a concrete packing. -/
theorem C4_min_batch_size_witness :
    ["a", "b"] ∈ determine_file_splits 10 [("a", 6), ("b", 3)] ∧
    2 ≤ (["a", "b"] : List String).length :=
  ⟨by norm_num [determine_file_splits, dfs_bins, dfs_step],
    C4_min_batch_size 10 [("a", 6), ("b", 3)] ["a", "b"]
      (by norm_num [determine_file_splits, dfs_bins, dfs_step])⟩

/-! ## C1 -/

/-- Counterexample for C1: the driver does not execute one merge per
planned batch. For two 6-and-7-sized raw files under a 10 budget the
planner yields zero batches (two singleton bins, both dropped), yet
compact() issues exactly one merge call over the whole candidate list. -/
theorem C1_counterexample :
    partition_merge_lists
      (compact_partition "2026" "10" ["AWS", "Azure"] "q/source=bar/"
        [("q/source=bar/raw1.parquet", 6, 1), ("q/source=bar/raw2.parquet", 7, 2)]) =
      [["q/source=bar/raw1.parquet", "q/source=bar/raw2.parquet"]] ∧
    determine_file_splits 10
      [("q/source=bar/raw1.parquet", 6), ("q/source=bar/raw2.parquet", 7)] = [] := by
  refine ⟨by decide, ?_⟩
  norm_num [determine_file_splits, dfs_bins, dfs_step]

/-- Amended claim C1: for every non-skipped leaf partition with more than one
converted file, the driver executes the merge pipeline exactly once,
over the whole filter_compacted candidate list; determine_file_splits
is never consulted by compact(). -/
theorem C1_single_merge (cy cm : String) (skipList : List String) (path : String)
    (file_tuples : List FileTuple)
    (hskip : should_skip_compacting cy cm skipList path = false)
    (hlen : 1 < file_tuples.length) :
    partition_merge_lists (compact_partition cy cm skipList path file_tuples) =
      [filter_compacted (determine_base_file_name path) file_tuples] := by
  rw [compact_partition_run cy cm skipList path file_tuples hskip hlen]
  rfl

/-- Witness for the amended C1 at a concrete two-file partition. -/
theorem C1_single_merge_witness :
    (should_skip_compacting "2026" "10" ["AWS", "Azure"] "q/source=bar/" = false ∧
     1 < ([("q/source=bar/raw1.parquet", 6, 1), ("q/source=bar/raw2.parquet", 7, 2)] :
       List FileTuple).length) ∧
    partition_merge_lists
      (compact_partition "2026" "10" ["AWS", "Azure"] "q/source=bar/"
        [("q/source=bar/raw1.parquet", 6, 1), ("q/source=bar/raw2.parquet", 7, 2)]) =
      [filter_compacted (determine_base_file_name "q/source=bar/")
        [("q/source=bar/raw1.parquet", 6, 1), ("q/source=bar/raw2.parquet", 7, 2)]] :=
  ⟨⟨by decide, by decide⟩,
    C1_single_merge "2026" "10" ["AWS", "Azure"] "q/source=bar/"
      [("q/source=bar/raw1.parquet", 6, 1), ("q/source=bar/raw2.parquet", 7, 2)]
      (by decide) (by decide)⟩

/-! ## C3 -/

theorem should_skip_iff (cy cm : String) (skipList : List String) (path : String) :
    should_skip_compacting cy cm skipList path = true ↔
      (("year=" ++ cy).data <:+: path.data ∧ ("month=" ++ cm).data <:+: path.data ∧
       ∃ st ∈ skipList, st.data <:+: path.data) := by
  simp [should_skip_compacting, strIn, List.any_eq_true, and_assoc]

theorem compact_partition_skipped_iff (cy cm : String) (skipList : List String)
    (path : String) (file_tuples : List FileTuple) :
    compact_partition cy cm skipList path file_tuples = .skipped ↔
      should_skip_compacting cy cm skipList path = true := by
  unfold compact_partition
  cases hsb : should_skip_compacting cy cm skipList path
  · simp only [hsb, Bool.false_eq_true, if_false, iff_false]
    intro h
    split at h <;> simp at h
  · simp [hsb]

/-- Counterexample for C3: the skip policy is a substring test, not a test
of the parsed source segment. This partition path has derived source
label GCP, which is not in the skip list, yet the code skips it because
the label AWS occurs as a substring elsewhere in the path. -/
theorem C3_counterexample :
    compact_partition "2026" "10" ["AWS", "Azure"]
      "p/source=GCP/extra=AWSfoo/year=2026/month=10/" [] = .skipped ∧
    determine_base_file_name "p/source=GCP/extra=AWSfoo/year=2026/month=10/" = "GCP" ∧
    "GCP" ∉ ["AWS", "Azure"] := by
  decide

/-- Amended claim C3: a partition is skipped by compact() if and only if the
strings year=current-year and month=current-month both occur as
substrings of its path and some configured skip label occurs as a
substring of its path (plain containment, not parsed path segments or
membership of the derived source label). -/
theorem C3_skip_policy (cy cm : String) (skipList : List String) (path : String)
    (file_tuples : List FileTuple) :
    compact_partition cy cm skipList path file_tuples = .skipped ↔
      (("year=" ++ cy).data <:+: path.data ∧ ("month=" ++ cm).data <:+: path.data ∧
       ∃ st ∈ skipList, st.data <:+: path.data) :=
  (compact_partition_skipped_iff cy cm skipList path file_tuples).trans
    (should_skip_iff cy cm skipList path)

/-! ## C2 -/

/-- Counterexample for C2: a file is not placed in exactly one bin. With
budget 10 and files a of size 6, b of size 6 and c of size 3, the inner
loop of determine_file_splits has no break, so c joins both open bins
and the emitted batches are not disjoint. -/
theorem C2_counterexample :
    determine_file_splits 10 [("a", 6), ("b", 6), ("c", 3)] = [["a", "c"], ["b", "c"]] ∧
    "c" ∈ ["a", "c"] ∧ "c" ∈ ["b", "c"] := by
  refine ⟨?_, by decide, by decide⟩
  norm_num [determine_file_splits, dfs_bins, dfs_step]

/-- Amended claim C2: when a candidate file is processed, it is appended to
every open bin whose running total plus the file size stays within
budget (the scan does not stop at the first match, so the file can be
placed in several bins); bins that do not accept it are unchanged, a
new bin is appended exactly when no open bin accepts the file, and no
bin is created when some bin accepts it. -/
theorem C2_every_fitting_bin (budget : ℚ) (bins : List Bin) (t : String × ℚ) :
    (∀ i : ℕ, ∀ c : Bin, bins[i]? = some c →
      (dfs_step budget bins t)[i]? =
        some (if c.2 + t.2 ≤ budget then (c.1 ++ [t], c.2 + t.2) else c)) ∧
    ((∀ c ∈ bins, budget < c.2 + t.2) →
      dfs_step budget bins t = bins ++ [([t], t.2)]) ∧
    ((∃ c ∈ bins, c.2 + t.2 ≤ budget) →
      (dfs_step budget bins t).length = bins.length) := by
  refine ⟨?_, ?_, ?_⟩
  · intro i c hc
    have hlt : i < bins.length := by
      by_contra h
      rw [List.getElem?_eq_none (by omega)] at hc
      cases hc
    simp only [dfs_step]
    split
    · rw [List.getElem?_map, hc]
      rfl
    · rw [List.getElem?_append, if_pos (by simpa using hlt), List.getElem?_map, hc]
      rfl
  · intro hall
    have hany : bins.any (fun b => decide (b.2 + t.2 ≤ budget)) = false := by
      rw [List.any_eq_false]
      intro c hc
      simp only [decide_eq_true_eq]
      exact not_le.mpr (hall c hc)
    simp only [dfs_step, hany, Bool.false_eq_true, if_false]
    congr 1
    have hmap : bins.map (fun b =>
        if b.2 + t.2 ≤ budget then (b.1 ++ [t], b.2 + t.2) else b) =
        bins.map id := by
      apply List.map_congr_left
      intro c hc
      simp [not_le.mpr (hall c hc)]
    rw [hmap, List.map_id]
  · intro hex
    have hany : bins.any (fun b => decide (b.2 + t.2 ≤ budget)) = true := by
      rw [List.any_eq_true]
      obtain ⟨c, hc, hle⟩ := hex
      exact ⟨c, hc, decide_eq_true hle⟩
    simp [dfs_step, hany]

/-- Witness for the amended C2: with two open bins of total 6 and file
c of size 3 under budget 10, both bins receive the file. -/
theorem C2_every_fitting_bin_witness :
    ([([("a", 6)], 6), ([("b", 6)], 6)] : List Bin)[0]? = some ([("a", 6)], 6) ∧
    (dfs_step 10 [([("a", 6)], 6), ([("b", 6)], 6)] ("c", 3))[0]? =
      some (if (6 : ℚ) + 3 ≤ 10 then ([("a", 6), ("c", 3)], (6 : ℚ) + 3) else ([("a", 6)], 6)) ∧
    (dfs_step 10 [([("a", 6)], 6), ([("b", 6)], 6)] ("c", 3))[1]? =
      some (if (6 : ℚ) + 3 ≤ 10 then ([("b", 6), ("c", 3)], (6 : ℚ) + 3) else ([("b", 6)], 6)) :=
  ⟨rfl,
    (C2_every_fitting_bin 10 [([("a", 6)], 6), ([("b", 6)], 6)] ("c", 3)).1 0
      ([("a", 6)], 6) rfl,
    (C2_every_fitting_bin 10 [([("a", 6)], 6), ([("b", 6)], 6)] ("c", 3)).1 1
      ([("b", 6)], 6) rfl⟩

/-! ## C7 -/

theorem dfs_step_inv (budget : ℚ) (bins : List Bin) (t : String × ℚ)
    (h : ∀ b ∈ bins, BinInv budget b) :
    ∀ b ∈ dfs_step budget bins t, BinInv budget b := by
  intro b hb
  simp only [dfs_step] at hb
  have hmap : ∀ c ∈ bins.map (fun b =>
      if b.2 + t.2 ≤ budget then (b.1 ++ [t], b.2 + t.2) else b), BinInv budget c := by
    intro c hc
    obtain ⟨d, hd, rfl⟩ := List.mem_map.mp hc
    obtain ⟨hsum, _⟩ := h d hd
    by_cases hfit : d.2 + t.2 ≤ budget
    · rw [if_pos hfit]
      refine ⟨?_, Or.inl hfit⟩
      simp [hsum]
    · rw [if_neg hfit]
      exact h d hd
  split at hb
  · exact hmap b hb
  · rcases List.mem_append.mp hb with hm | hm
    · exact hmap b hm
    · have : b = ([t], t.2) := by simpa using hm
      subst this
      exact ⟨by simp, Or.inr (by simp)⟩

theorem dfs_bins_inv (budget : ℚ) (file_tuples : List (String × ℚ)) :
    ∀ b ∈ dfs_bins budget file_tuples, BinInv budget b := by
  suffices h : ∀ bins : List Bin, (∀ b ∈ bins, BinInv budget b) →
      ∀ b ∈ file_tuples.foldl (dfs_step budget) bins, BinInv budget b by
    apply h
    intro b hb
    have : b = ([], 0) := by simpa using hb
    subst this
    exact ⟨by simp, Or.inr (by simp)⟩
  induction file_tuples with
  | nil => intro bins hb; simpa using hb
  | cons x xs ih =>
    intro bins hb
    exact ih (dfs_step budget bins x) (dfs_step_inv budget bins x hb)

/-- Claim C7: for every bin of the packing state whose key projection is one
of the batches emitted by determine_file_splits, the sum of the member
file sizes is at most the target byte budget. -/
theorem C7_budget (budget : ℚ) (file_tuples : List (String × ℚ)) :
    ∀ b ∈ dfs_bins budget file_tuples,
      b.1.map (fun t => t.1) ∈ determine_file_splits budget file_tuples →
        (b.1.map (fun t => t.2)).sum ≤ budget := by
  intro b hb hmem
  obtain ⟨hsum, hle⟩ := dfs_bins_inv budget file_tuples b hb
  have h := (List.mem_filter.mp hmem).2
  have hlen : 1 < (b.1.map (fun t : String × ℚ => t.1)).length := of_decide_eq_true h
  rw [List.length_map] at hlen
  rcases hle with hok | hsmall
  · rw [← hsum]
    exact hok
  · omega

/-- Witness for C7 on a concrete packing with one emitted batch. -/
theorem C7_budget_witness :
    (([("a", (6 : ℚ)), ("b", 3)], (9 : ℚ)) ∈ dfs_bins 10 [("a", 6), ("b", 3)] ∧
     [("a", (6 : ℚ)), ("b", 3)].map (fun t => t.1) ∈
       determine_file_splits 10 [("a", 6), ("b", 3)]) ∧
    ([("a", (6 : ℚ)), ("b", 3)].map (fun t => t.2)).sum ≤ 10 :=
  ⟨⟨by norm_num [dfs_bins, dfs_step],
     by norm_num [determine_file_splits, dfs_bins, dfs_step]⟩,
    C7_budget 10 [("a", 6), ("b", 3)] ([("a", (6 : ℚ)), ("b", 3)], 9)
      (by norm_num [dfs_bins, dfs_step])
      (by norm_num [determine_file_splits, dfs_bins, dfs_step])⟩

/-! ## C8 -/

theorem partitionFiles_fst (basename : String) (fts : List FileTuple) :
    (partitionFiles basename fts).1 =
      (fts.filter (fun t => !matches_compacted basename t.1)).map (fun t => t.1) := by
  induction fts with
  | nil => rfl
  | cons x xs ih =>
    cases hx : matches_compacted basename x.1 <;>
      simp [partitionFiles, hx, List.filter_cons, ih]

theorem partitionFiles_snd (basename : String) (fts : List FileTuple) :
    (partitionFiles basename fts).2 =
      (fts.filter (fun t => matches_compacted basename t.1)).map (fun t => (t.1, t.2.2)) := by
  induction fts with
  | nil => rfl
  | cons x xs ih =>
    cases hx : matches_compacted basename x.1 <;>
      simp [partitionFiles, hx, List.filter_cons, ih]

theorem last_compacted_eq_none (l : List (String × Nat)) (h : last_compacted l = none) :
    l = [] := by
  cases l with
  | nil => rfl
  | cons x xs =>
    exfalso
    cases hx : last_compacted xs with
    | none =>
      simp only [last_compacted, hx] at h
      exact Option.noConfusion h
    | some b =>
      simp only [last_compacted, hx] at h
      by_cases hle : x.2 ≤ b.2 <;> simp [hle] at h

theorem last_compacted_mem (l : List (String × Nat)) :
    ∀ e, last_compacted l = some e → e ∈ l := by
  induction l with
  | nil => intro e h; cases h
  | cons x xs ih =>
    intro e h
    cases hx : last_compacted xs with
    | none =>
      simp only [last_compacted, hx] at h
      cases h
      exact List.mem_cons_self x xs
    | some b =>
      simp only [last_compacted, hx] at h
      by_cases hle : x.2 ≤ b.2
      · rw [if_pos hle] at h
        cases h
        exact List.mem_cons_of_mem x (ih e hx)
      · rw [if_neg hle] at h
        cases h
        exact List.mem_cons_self x xs

theorem last_compacted_max (l : List (String × Nat)) :
    ∀ e, last_compacted l = some e → ∀ x ∈ l, x.2 ≤ e.2 := by
  induction l with
  | nil => intro e h; cases h
  | cons y ys ih =>
    intro e h x hx
    cases hy : last_compacted ys with
    | none =>
      simp only [last_compacted, hy] at h
      cases h
      have hnil := last_compacted_eq_none ys hy
      subst hnil
      rcases List.mem_cons.mp hx with rfl | hxs
      · exact le_refl _
      · cases hxs
    | some b =>
      simp only [last_compacted, hy] at h
      by_cases hle : y.2 ≤ b.2
      · rw [if_pos hle] at h
        cases h
        rcases List.mem_cons.mp hx with rfl | hxs
        · exact hle
        · exact ih e hy x hxs
      · rw [if_neg hle] at h
        cases h
        rcases List.mem_cons.mp hx with rfl | hxs
        · exact le_refl _
        · exact le_of_lt (lt_of_le_of_lt (ih b hy x hxs) (lt_of_not_le hle))

/-- Claim C8: filter_compacted keeps every non-matching file, in listing
order, as a candidate; when convention-matching files exist it
additionally retains exactly one of them, prepended, namely one with
maximal lastModified among all matching files. -/
theorem C8_filter (basename : String) (fts : List FileTuple) :
    (fts.filter (fun t => matches_compacted basename t.1) = [] →
      filter_compacted basename fts =
        (fts.filter (fun t => !matches_compacted basename t.1)).map (fun t => t.1)) ∧
    (fts.filter (fun t => matches_compacted basename t.1) ≠ [] →
      ∃ best ∈ fts.filter (fun t => matches_compacted basename t.1),
        filter_compacted basename fts =
          best.1 :: (fts.filter (fun t => !matches_compacted basename t.1)).map (fun t => t.1) ∧
        ∀ t ∈ fts.filter (fun t => matches_compacted basename t.1), t.2.2 ≤ best.2.2) := by
  constructor
  · intro hM
    have hsnd : (partitionFiles basename fts).2 = [] := by
      rw [partitionFiles_snd, hM]
      rfl
    simp [filter_compacted, hsnd, last_compacted, partitionFiles_fst]
  · intro hM
    have hsnd := partitionFiles_snd basename fts
    cases he : last_compacted (partitionFiles basename fts).2 with
    | none =>
      exfalso
      have := last_compacted_eq_none _ he
      rw [hsnd] at this
      exact hM (by simpa using this)
    | some e =>
      have hmem := last_compacted_mem _ e he
      rw [hsnd] at hmem
      obtain ⟨best, hbest, hbe⟩ := List.mem_map.mp hmem
      refine ⟨best, hbest, ?_, ?_⟩
      · have : filter_compacted basename fts = e.1 :: (partitionFiles basename fts).1 := by
          simp [filter_compacted, he]
        rw [this, partitionFiles_fst, ← hbe]
      · intro t ht
        have hmax := last_compacted_max _ e he (t.1, t.2.2)
          (by rw [hsnd]; exact List.mem_map_of_mem _ ht)
        rw [← hbe] at hmax
        exact hmax

/-- Witness for C8 on a partition holding a uuid-convention file, a
legacy-convention file and one raw file. -/
theorem C8_filter_witness :
    ([("p/source=data/data_0123456789abcdef0123456789abcdef.parquet", 2, 5),
      ("p/source=data/data_0.parquet", 1, 3),
      ("p/source=data/raw1.parquet", 5, 4)].filter
        (fun t => matches_compacted "data" t.1) ≠ []) ∧
    (∃ best ∈ [("p/source=data/data_0123456789abcdef0123456789abcdef.parquet", 2, 5),
        ("p/source=data/data_0.parquet", 1, 3),
        ("p/source=data/raw1.parquet", 5, 4)].filter
          (fun t => matches_compacted "data" t.1),
      filter_compacted "data"
          [("p/source=data/data_0123456789abcdef0123456789abcdef.parquet", 2, 5),
           ("p/source=data/data_0.parquet", 1, 3),
           ("p/source=data/raw1.parquet", 5, 4)] =
        best.1 :: ([("p/source=data/data_0123456789abcdef0123456789abcdef.parquet", 2, 5),
          ("p/source=data/data_0.parquet", 1, 3),
          ("p/source=data/raw1.parquet", 5, 4)].filter
            (fun t => !matches_compacted "data" t.1)).map (fun t => t.1) ∧
      ∀ t ∈ [("p/source=data/data_0123456789abcdef0123456789abcdef.parquet", 2, 5),
          ("p/source=data/data_0.parquet", 1, 3),
          ("p/source=data/raw1.parquet", 5, 4)].filter
            (fun t => matches_compacted "data" t.1), t.2.2 ≤ best.2.2) :=
  ⟨by decide,
    (C8_filter "data"
      [("p/source=data/data_0123456789abcdef0123456789abcdef.parquet", 2, 5),
       ("p/source=data/data_0.parquet", 1, 3),
       ("p/source=data/raw1.parquet", 5, 4)]).2 (by decide)⟩

/-! ## C6 -/

theorem searchAny_append (p : List Char → Bool) (l2 : List Char) (h : p l2 = true) :
    ∀ l1 : List Char, searchAny p (l1 ++ l2) = true := by
  intro l1
  induction l1 with
  | nil =>
    cases l2 with
    | nil => simpa [searchAny] using h
    | cons c r => simp [searchAny, h]
  | cons c r ih => simp [searchAny, ih]

theorem hexPatHere_intro (b h : List Char) (c : Char) (rest : List Char)
    (hlen : h.length = 32) (hhex : h.all isLowerHexDigit = true) :
    hexPatHere b
      ('/' :: (b ++ '_' :: (h ++ c ::
        ('p' :: 'a' :: 'r' :: 'q' :: 'u' :: 'e' :: 't' :: rest)))) = true := by
  have ht : (h ++ c :: ('p' :: 'a' :: 'r' :: 'q' :: 'u' :: 'e' :: 't' :: rest)).take 32 = h := by
    rw [← hlen]
    exact List.take_left h _
  have hd : (h ++ c :: ('p' :: 'a' :: 'r' :: 'q' :: 'u' :: 'e' :: 't' :: rest)).drop 32 =
      c :: ('p' :: 'a' :: 'r' :: 'q' :: 'u' :: 'e' :: 't' :: rest) := by
    rw [← hlen]
    exact List.drop_left h _
  have htp : ∀ r : List Char,
      ('p' :: 'a' :: 'r' :: 'q' :: 'u' :: 'e' :: 't' :: r).take 7 = "parquet".data :=
    fun _ => rfl
  simp [hexPatHere, List.take_left, List.drop_left, ht, hd, hlen, hhex, htp]

theorem intSuffixTail_cons (c0 : Char) (r : List Char) :
    intSuffixTail (c0 :: r) =
      (c0.isDigit &&
        ((match r with
          | _ :: r2 => decide (r2.take 7 = "parquet".data)
          | [] => false) || intSuffixTail r)) := rfl

theorem intSuffixTail_intro (d : List Char) (c : Char) (rest : List Char)
    (hd1 : d ≠ []) (hd2 : d.all Char.isDigit = true) :
    intSuffixTail (d ++ c :: ('p' :: 'a' :: 'r' :: 'q' :: 'u' :: 'e' :: 't' :: rest)) = true := by
  induction d with
  | nil => exact absurd rfl hd1
  | cons x xs ih =>
    rw [List.all_cons] at hd2
    obtain ⟨hx, hxs2⟩ := Bool.and_eq_true_iff.mp hd2
    have htp : ∀ r : List Char,
        ('p' :: 'a' :: 'r' :: 'q' :: 'u' :: 'e' :: 't' :: r).take 7 = "parquet".data :=
      fun _ => rfl
    cases xs with
    | nil => simp [intSuffixTail, hx, htp]
    | cons y ys =>
      have hxs : intSuffixTail ((y :: ys) ++ c ::
          ('p' :: 'a' :: 'r' :: 'q' :: 'u' :: 'e' :: 't' :: rest)) = true :=
        ih (by simp) hxs2
      show intSuffixTail (x :: ((y :: ys) ++ c ::
        ('p' :: 'a' :: 'r' :: 'q' :: 'u' :: 'e' :: 't' :: rest))) = true
      rw [intSuffixTail_cons, hx, Bool.true_and, hxs, Bool.or_true]

theorem intPatHere_intro (b d : List Char) (c : Char) (rest : List Char)
    (hd1 : d ≠ []) (hd2 : d.all Char.isDigit = true) :
    intPatHere b
      ('/' :: (b ++ '_' :: (d ++ c ::
        ('p' :: 'a' :: 'r' :: 'q' :: 'u' :: 'e' :: 't' :: rest)))) = true := by
  simp [intPatHere, List.take_left, List.drop_left,
    intSuffixTail_intro d c rest hd1 hd2]

/-- Claim C6: every output key written by the merge pipeline (partition path
ending in a slash, base name, underscore, 32 lowercase hex characters,
.parquet) is classified as already compacted by the detection regexes
for the same base name, and so is every legacy key with a nonempty
decimal integer suffix in place of the hex digest. -/
theorem C6_roundtrip (pre basename hex digits : String)
    (hhexlen : hex.length = 32) (hhex : hex.data.all isLowerHexDigit = true)
    (hdig1 : digits.data ≠ []) (hdig2 : digits.data.all Char.isDigit = true) :
    matches_compacted basename (output_key (pre ++ "/") basename hex) = true ∧
    matches_compacted basename
      (pre ++ "/" ++ basename ++ "_" ++ digits ++ ".parquet") = true := by
  constructor
  · have key : (output_key (pre ++ "/") basename hex).data =
        pre.data ++ ('/' :: (basename.data ++ '_' :: (hex.data ++ '.' ::
          ('p' :: 'a' :: 'r' :: 'q' :: 'u' :: 'e' :: 't' :: [])))) := by
      simp [output_key, String.data_append]
    have h1 : searchAny (hexPatHere basename.data)
        ((output_key (pre ++ "/") basename hex).data) = true := by
      rw [key]
      exact searchAny_append _ _
        (hexPatHere_intro basename.data hex.data '.' [] hhexlen hhex) pre.data
    simp only [matches_compacted, h1, Bool.true_or]
  · have key : (pre ++ "/" ++ basename ++ "_" ++ digits ++ ".parquet").data =
        pre.data ++ ('/' :: (basename.data ++ '_' :: (digits.data ++ '.' ::
          ('p' :: 'a' :: 'r' :: 'q' :: 'u' :: 'e' :: 't' :: [])))) := by
      simp [String.data_append]
    have h2 : searchAny (intPatHere basename.data)
        ((pre ++ "/" ++ basename ++ "_" ++ digits ++ ".parquet").data) = true := by
      rw [key]
      exact searchAny_append _ _
        (intPatHere_intro basename.data digits.data '.' [] hdig1 hdig2) pre.data
    simp only [matches_compacted, h2, Bool.or_true]

/-- Witness for C6 with a concrete hex digest and a concrete legacy
integer suffix. -/
theorem C6_roundtrip_witness :
    (("0123456789abcdef0123456789abcdef" : String).length = 32 ∧
     ("0123456789abcdef0123456789abcdef" : String).data.all isLowerHexDigit = true ∧
     ("17" : String).data ≠ [] ∧ ("17" : String).data.all Char.isDigit = true) ∧
    matches_compacted "data"
      (output_key ("s3://bucket/acct/source=data/year=2025/month=01" ++ "/") "data"
        "0123456789abcdef0123456789abcdef") = true ∧
    matches_compacted "data"
      ("s3://bucket/acct/source=data/year=2025/month=01" ++ "/" ++ "data" ++ "_" ++ "17" ++
        ".parquet") = true :=
  ⟨⟨by decide, by decide, by decide, by decide⟩,
    C6_roundtrip "s3://bucket/acct/source=data/year=2025/month=01" "data"
      "0123456789abcdef0123456789abcdef" "17"
      (by decide) (by decide) (by decide) (by decide)⟩

/-! ## C9 -/

theorem convert_partition_mem (pp : String) (budget : ℚ) (vs : List (String × Nat × Nat)) :
    ∀ t ∈ convert_partition pp budget vs,
      (t.2.1 : ℚ) < budget ∧ ∃ v ∈ vs, t = (pp ++ v.1, v.2.1, v.2.2) := by
  intro t ht
  unfold convert_partition at ht
  obtain ⟨v, hv, hsome⟩ := List.mem_filterMap.mp ht
  by_cases h : budget ≤ (v.2.1 : ℚ)
  · rw [if_pos h] at hsome
    cases hsome
  · rw [if_neg h] at hsome
    cases hsome
    exact ⟨lt_of_not_le h, v, hv, rfl⟩

theorem filter_compacted_subset (basename : String) (fts : List FileTuple) :
    ∀ x ∈ filter_compacted basename fts, x ∈ fts.map (fun t => t.1) := by
  have hfst : ∀ x ∈ (partitionFiles basename fts).1, x ∈ fts.map (fun t => t.1) := by
    rw [partitionFiles_fst]
    intro x hx
    obtain ⟨t, ht, rfl⟩ := List.mem_map.mp hx
    exact List.mem_map_of_mem _ (List.mem_filter.mp ht).1
  have hsnd : ∀ e ∈ (partitionFiles basename fts).2, e.1 ∈ fts.map (fun t => t.1) := by
    rw [partitionFiles_snd]
    intro e he
    obtain ⟨t, ht, rfl⟩ := List.mem_map.mp he
    exact List.mem_map_of_mem _ (List.mem_filter.mp ht).1
  intro x hx
  simp only [filter_compacted] at hx
  cases he : last_compacted (partitionFiles basename fts).2 with
  | none =>
    simp only [he] at hx
    exact hfst x hx
  | some e =>
    simp only [he] at hx
    rcases List.mem_cons.mp hx with rfl | hmem
    · exact hsnd e (last_compacted_mem _ e he)
    · exact hfst x hmem

theorem dfs_step_members (budget : ℚ) (S : String × ℚ → Prop) (bins : List Bin)
    (t : String × ℚ) (hb : ∀ b ∈ bins, ∀ u ∈ b.1, S u) (ht : S t) :
    ∀ b ∈ dfs_step budget bins t, ∀ u ∈ b.1, S u := by
  intro b hmem u hu
  have hmap : ∀ c ∈ bins.map (fun b =>
      if b.2 + t.2 ≤ budget then (b.1 ++ [t], b.2 + t.2) else b), ∀ u2 ∈ c.1, S u2 := by
    intro c hc u2 hu2
    obtain ⟨d, hd, rfl⟩ := List.mem_map.mp hc
    by_cases hfit : d.2 + t.2 ≤ budget
    · rw [if_pos hfit] at hu2
      rcases List.mem_append.mp hu2 with h1 | h1
      · exact hb d hd u2 h1
      · have hu2t : u2 = t := by simpa using h1
        subst hu2t
        exact ht
    · rw [if_neg hfit] at hu2
      exact hb d hd u2 hu2
  simp only [dfs_step] at hmem
  split at hmem
  · exact hmap b hmem u hu
  · rcases List.mem_append.mp hmem with h1 | h1
    · exact hmap b h1 u hu
    · have hbt : b = ([t], t.2) := by simpa using h1
      subst hbt
      have hut : u = t := by simpa using hu
      subst hut
      exact ht

theorem dfs_bins_members (budget : ℚ) (fts : List (String × ℚ)) :
    ∀ b ∈ dfs_bins budget fts, ∀ u ∈ b.1, u ∈ fts := by
  suffices h : ∀ (l : List (String × ℚ)) (S : String × ℚ → Prop) (bins : List Bin),
      (∀ b ∈ bins, ∀ u ∈ b.1, S u) → (∀ u ∈ l, S u) →
      ∀ b ∈ l.foldl (dfs_step budget) bins, ∀ u ∈ b.1, S u by
    apply h fts (fun u => u ∈ fts) [([], 0)]
    · intro b hb u hu
      have hb0 : b = ([], 0) := by simpa using hb
      subst hb0
      exact absurd hu (List.not_mem_nil u)
    · intro u hu
      exact hu
  intro l
  induction l with
  | nil =>
    intro S bins hb _
    simpa using hb
  | cons x xs ih =>
    intro S bins hb hl
    exact ih S (dfs_step budget bins x)
      (dfs_step_members budget S bins x hb (hl x (List.mem_cons_self x xs)))
      (fun u hu => hl u (List.mem_cons_of_mem x hu))

theorem compact_partition_run_inv (cy cm : String) (skipList : List String)
    (path : String) (fts : List FileTuple) (fl : List String)
    (h : compact_partition cy cm skipList path fts = .run fl) :
    fl = filter_compacted (determine_base_file_name path) fts := by
  unfold compact_partition at h
  split at h
  · cases h
  · split at h
    · cases h
    · cases h
      rfl

/-- Claim C9: a listed file whose size is at least the byte budget is dropped
by convert_results, so its key is never a candidate, never part of the
single merge call the driver issues, never deleted, and never a member
of any batch determine_file_splits would emit for the partition. -/
theorem C9_oversize_excluded (pp : String) (budget : ℚ) (vs : List (String × Nat × Nat))
    (cy cm : String) (skipList : List String) (path : String) (chunk_ok : List Bool)
    (k : String) (s m : Nat)
    (hmem : (k, s, m) ∈ vs) (hbig : budget ≤ (s : ℚ))
    (hkeys : (vs.map (fun v => v.1)).Nodup) :
    (∀ t ∈ convert_partition pp budget vs, (t.2.1 : ℚ) < budget) ∧
    pp ++ k ∉ (convert_partition pp budget vs).map (fun t => t.1) ∧
    (∀ batch ∈ partition_merge_lists
        (compact_partition cy cm skipList path (convert_partition pp budget vs)),
      pp ++ k ∉ batch) ∧
    pp ++ k ∉ partition_deletes
        (compact_partition cy cm skipList path (convert_partition pp budget vs)) chunk_ok ∧
    (∀ batch ∈ determine_file_splits budget
        ((convert_partition pp budget vs).map (fun t => (t.1, (t.2.1 : ℚ)))),
      pp ++ k ∉ batch) := by
  have hsizes : ∀ t ∈ convert_partition pp budget vs, (t.2.1 : ℚ) < budget :=
    fun t ht => (convert_partition_mem pp budget vs t ht).1
  have hnotkey : pp ++ k ∉ (convert_partition pp budget vs).map (fun t => t.1) := by
    intro hin
    obtain ⟨t, ht, hteq⟩ := List.mem_map.mp hin
    obtain ⟨hlt, v, hv, rfl⟩ := convert_partition_mem pp budget vs t ht
    have hk : v.1 = k := by
      have h2 := congrArg String.data hteq
      simp only [String.data_append] at h2
      exact String.ext (List.append_cancel_left h2)
    have hvk : v = (k, s, m) := List.inj_on_of_nodup_map hkeys hv hmem hk
    rw [hvk] at hlt
    exact absurd hbig (not_le.mpr hlt)
  refine ⟨hsizes, hnotkey, ?_, ?_, ?_⟩
  · intro batch hb hkin
    cases hcp : compact_partition cy cm skipList path (convert_partition pp budget vs) with
    | skipped => rw [hcp] at hb; cases hb
    | noop => rw [hcp] at hb; cases hb
    | run fl =>
      rw [hcp] at hb
      have hbfl : batch = fl := by simpa [partition_merge_lists] using hb
      subst hbfl
      rw [compact_partition_run_inv cy cm skipList path _ _ hcp] at hkin
      exact hnotkey (filter_compacted_subset _ _ _ hkin)
  · intro hkin
    cases hcp : compact_partition cy cm skipList path (convert_partition pp budget vs) with
    | skipped => rw [hcp] at hkin; cases hkin
    | noop => rw [hcp] at hkin; cases hkin
    | run fl =>
      rw [hcp] at hkin
      simp only [partition_deletes] at hkin
      by_cases hsucc : merge_files_success chunk_ok = true
      · rw [if_pos hsucc] at hkin
        rw [compact_partition_run_inv cy cm skipList path _ _ hcp] at hkin
        exact hnotkey (filter_compacted_subset _ _ _ hkin)
      · rw [if_neg hsucc] at hkin
        cases hkin
  · intro batch hb hkin
    unfold determine_file_splits at hb
    obtain ⟨bin, hbin, rfl⟩ := List.mem_map.mp (List.mem_filter.mp hb).1
    obtain ⟨u, hu, hu1⟩ := List.mem_map.mp hkin
    have humem := dfs_bins_members budget _ bin hbin u hu
    obtain ⟨t, ht, hteq⟩ := List.mem_map.mp humem
    apply hnotkey
    have htk : t.1 = pp ++ k := by rw [← hu1, ← hteq]
    rw [← htk]
    exact List.mem_map_of_mem _ ht

/-- Witness for C9 with one oversized and two small files. -/
theorem C9_oversize_excluded_witness :
    (("acct/big.parquet", 400, 1) ∈
        [("acct/big.parquet", (400 : Nat), (1 : Nat)), ("acct/small1.parquet", 4, 2),
         ("acct/small2.parquet", 5, 3)] ∧
     (10 : ℚ) ≤ ((400 : Nat) : ℚ) ∧
     ([("acct/big.parquet", (400 : Nat), (1 : Nat)), ("acct/small1.parquet", 4, 2),
       ("acct/small2.parquet", 5, 3)].map (fun v => v.1)).Nodup) ∧
    ((∀ t ∈ convert_partition "s3://b/" 10
        [("acct/big.parquet", 400, 1), ("acct/small1.parquet", 4, 2),
         ("acct/small2.parquet", 5, 3)], (t.2.1 : ℚ) < 10) ∧
     "s3://b/" ++ "acct/big.parquet" ∉
       (convert_partition "s3://b/" 10
         [("acct/big.parquet", 400, 1), ("acct/small1.parquet", 4, 2),
          ("acct/small2.parquet", 5, 3)]).map (fun t => t.1) ∧
     (∀ batch ∈ partition_merge_lists
         (compact_partition "2026" "10" ["AWS", "Azure"] "s3://b/acct/"
           (convert_partition "s3://b/" 10
             [("acct/big.parquet", 400, 1), ("acct/small1.parquet", 4, 2),
              ("acct/small2.parquet", 5, 3)])),
       "s3://b/" ++ "acct/big.parquet" ∉ batch) ∧
     "s3://b/" ++ "acct/big.parquet" ∉ partition_deletes
         (compact_partition "2026" "10" ["AWS", "Azure"] "s3://b/acct/"
           (convert_partition "s3://b/" 10
             [("acct/big.parquet", 400, 1), ("acct/small1.parquet", 4, 2),
              ("acct/small2.parquet", 5, 3)])) [true] ∧
     (∀ batch ∈ determine_file_splits 10
         ((convert_partition "s3://b/" 10
           [("acct/big.parquet", 400, 1), ("acct/small1.parquet", 4, 2),
            ("acct/small2.parquet", 5, 3)]).map (fun t => (t.1, (t.2.1 : ℚ)))),
       "s3://b/" ++ "acct/big.parquet" ∉ batch)) :=
  ⟨⟨by decide, by norm_num, by decide⟩,
    C9_oversize_excluded "s3://b/" 10
      [("acct/big.parquet", 400, 1), ("acct/small1.parquet", 4, 2),
       ("acct/small2.parquet", 5, 3)]
      "2026" "10" ["AWS", "Azure"] "s3://b/acct/" [true]
      "acct/big.parquet" 400 1
      (by decide) (by norm_num) (by decide)⟩

end ParquetCompactor
